import Mathlib

/-!
logrus2slog: Entry derivation and level dispatch

A shallow embedding of `entry.go` and `logger.go`.

* Go strings are byte sequences (`GoString`).
* `*Entry` pointers are indices into `Heap.entries`; a `[]slog.Attr` slice is
  a header (`Slice`) over a backing array stored in `Heap.arrays`, so that
  `append` can write in place when the slice has spare capacity.
* `*slog.Logger` handles are identifiers; what the backend does with them
  (`With`, `Enabled`) is a parameter (`Env`), as are `Level.ToSlog`,
  `fmt.Sprintf` and the runtime's slice growth policy.
* A call of `slog.Logger.Log`, a call of a producer function, `os.Exit` and
  `panic` are explicit: every emission method returns a `Run`, the events it
  performed in order and the way it ended.
-/

namespace Logrus2Slog

/-! ## Values and text rendering -/

/-- A Go string: its bytes. -/
abbrev GoString := List Nat

/-- The bytes of an ASCII literal. -/
def ascii (s : String) : GoString := s.toList.map Char.toNat

/-- An `interface{}` argument. `other r` stands for a value of any further
non-string kind whose default rendering is `r`. -/
inductive Value where
  | null
  | str (s : GoString)
  | int (i : Int)
  | bool (b : Bool)
  | other (r : GoString)
  deriving DecidableEq

/-- Decimal rendering of an integer. -/
def fmtInteger : Int → GoString
  | Int.ofNat n => ascii (Nat.repr n)
  | Int.negSucc n => ascii "-" ++ ascii (Nat.repr (n + 1))

/-- The Go library's `(*pp).printArg(arg, 'v')`: the default textual
representation of one operand. -/
def printArg : Value → GoString
  | Value.null => ascii "<nil>"
  | Value.str s => s
  | Value.int i => fmtInteger i
  | Value.bool true => ascii "true"
  | Value.bool false => ascii "false"
  | Value.other r => r

/-- The test `arg != nil && reflect.TypeOf(arg).Kind() == reflect.String`. -/
def isString : Value → Bool
  | Value.str _ => true
  | _ => false

/-- The Go library's `(*pp).doPrint`, the loop behind `fmt.Sprint`: a space
is written before an operand when it is not the first and neither it nor the
previous operand is a string. -/
def doPrint (argNum : Nat) (prevString : Bool) : List Value → GoString
  | [] => []
  | arg :: rest =>
    (if argNum > 0 ∧ isString arg = false ∧ prevString = false then [32] else [])
      ++ printArg arg ++ doPrint (argNum + 1) (isString arg) rest

/-- The Go library's `fmt.Sprint`. -/
def Sprint (a : List Value) : GoString := doPrint 0 false a

/-- The loop of the Go library's `(*pp).doPrintln`: a space is written
before every operand but the first. -/
def doPrintlnLoop (argNum : Nat) : List Value → GoString
  | [] => []
  | arg :: rest =>
    (if argNum > 0 then [32] else []) ++ printArg arg ++ doPrintlnLoop (argNum + 1) rest

/-- The Go library's `fmt.Sprintln`: the loop, then a newline. -/
def Sprintln (a : List Value) : GoString := doPrintlnLoop 0 a ++ [10]

/-- The slice expression `s[:hi]`; `none` is the run-time panic
"slice bounds out of range". -/
def sliceTo (s : GoString) (hi : Int) : Option GoString :=
  if 0 ≤ hi ∧ hi ≤ (s.length : Int) then some (s.take hi.toNat) else none

/-- Source `toString`. -/
def toString (args : List Value) : GoString := Sprint args

/-- Source `sprintlnn`: `msg := fmt.Sprintln(args...); return msg[:len(msg)-1]`. -/
def sprintlnn (args : List Value) : Option GoString :=
  let msg := Sprintln args
  sliceTo msg ((msg.length : Int) - 1)

/-- The separator-joined text the specification describes: the renderings of
the operands with `sep` between adjacent ones. -/
def joinWith (sep : GoString) : List GoString → GoString
  | [] => []
  | [x] => x
  | x :: y :: rest => x ++ sep ++ joinWith sep (y :: rest)

/-! ## Data model -/

/-- A `context.Context` value: the nil interface, `context.Background()`, or
some other context. -/
inductive Context where
  | nil
  | background
  | val (id : Nat)
  deriving DecidableEq

/-- Modelled from the spec: the type `Level` and its constants are declared
outside src; these are the constants the source uses ("Panic, Fatal, Error,
Warn, Warning(alias of Warn), Info, Debug, Trace"). -/
inductive Level where
  | PanicLevel
  | FatalLevel
  | ErrorLevel
  | WarnLevel
  | InfoLevel
  | DebugLevel
  | TraceLevel
  deriving DecidableEq

/-- A `slog.Attr`. -/
structure Attr where
  Key : GoString
  Value : Value
  deriving DecidableEq

/-- The call `slog.Any(key, value)`. -/
def slogAny (key : GoString) (value : Value) : Attr := ⟨key, value⟩

/-- The zero `slog.Attr`, the content of array cells never written. -/
def Attr.zero : Attr := ⟨[], Value.null⟩

/-- What the repository takes from outside: the backend (`slog.Logger.With`
and `slog.Logger.Enabled` on handles), `Level.ToSlog` (declared outside
src), `fmt.Sprintf`, and the capacity the runtime picks when `append` must
reallocate (old capacity, needed length). -/
structure Env where
  With : Nat → List Attr → Nat
  Enabled : Nat → Context → Int → Bool
  ToSlog : Level → Int
  Sprintf : GoString → List Value → GoString
  growCap : Nat → Nat → Nat

/-- A slice header of type `[]slog.Attr`: backing array, offset into it,
length and capacity. The nil slice has `len = 0` and `cap = 0`. -/
structure Slice where
  arr : Nat
  off : Nat
  len : Nat
  cap : Nat
  deriving DecidableEq

/-- The nil slice. -/
def Slice.nil : Slice := ⟨0, 0, 0, 0⟩

/-- Source `Entry`. `Logger` is a `*slog.Logger` handle. -/
structure Entry where
  Logger : Nat
  Context : Context
  Data : Slice
  deriving DecidableEq

/-- The memory the methods work on: the allocated `Entry` structs (a
`*Entry` is an index) and the backing arrays of `Data` slices. -/
structure Heap where
  entries : List Entry
  arrays : List (List Attr)
  deriving DecidableEq

/-- Dereference `*entry`; `none` is a nil-pointer dereference. -/
def Heap.load (hp : Heap) (p : Nat) : Option Entry := hp.entries[p]?

/-- Write the struct behind `p`. -/
def Heap.store (hp : Heap) (p : Nat) (en : Entry) : Heap :=
  { hp with entries := hp.entries.set p en }

/-- The elements visible through a slice: `s[0], ..., s[len(s)-1]`. -/
def Slice.read (hp : Heap) (s : Slice) : List Attr :=
  ((hp.arrays.getD s.arr []).drop s.off).take s.len

/-- The `Data` of the entry behind `p`, as a sequence. -/
def Heap.dataOf (hp : Heap) (p : Nat) : Option (List Attr) :=
  (hp.load p).map (fun en => en.Data.read hp)

/-- A slice header is backed by the heap: its window lies inside its array.
A slice of capacity zero needs no array. -/
def Slice.Valid (hp : Heap) (s : Slice) : Prop :=
  s.len ≤ s.cap ∧ (0 < s.cap → s.off + s.cap ≤ (hp.arrays.getD s.arr []).length)

instance (hp : Heap) (s : Slice) : Decidable (s.Valid hp) := by
  unfold Slice.Valid; infer_instance

/-- The builtin `append(s, x)` for one element: written in place behind the
last element when the capacity allows, else copied into a fresh array of the
capacity the runtime picks (never below the needed length). -/
def goAppend (E : Env) (hp : Heap) (s : Slice) (x : Attr) : Slice × Heap :=
  if s.len + 1 ≤ s.cap then
    (⟨s.arr, s.off, s.len + 1, s.cap⟩,
      { hp with arrays := hp.arrays.set s.arr ((hp.arrays.getD s.arr []).set (s.off + s.len) x) })
  else
    let newcap := max (s.len + 1) (E.growCap s.cap (s.len + 1))
    (⟨hp.arrays.length, 0, s.len + 1, newcap⟩,
      { hp with arrays := hp.arrays ++
          [s.read hp ++ [x] ++ List.replicate (newcap - (s.len + 1)) Attr.zero] })

/-! ## Entry: construction and derivation -/

/-- Source `entryOf`: a nil context is replaced by the background context;
the new struct has nil `Data`. -/
def entryOf (hp : Heap) (ctx : Context) (logger : Nat) : Nat × Heap :=
  let ctx := if ctx = Context.nil then Context.background else ctx
  (hp.entries.length, { hp with entries := hp.entries ++ [⟨logger, ctx, Slice.nil⟩] })

/-- Source `Entry.Slog`. -/
def Entry.Slog (hp : Heap) (entry : Nat) : Option Nat :=
  (hp.load entry).map (fun en => en.Logger)

/-- Source `Entry.Dup`: `var dup = *entry; return &dup`. -/
def Entry.Dup (hp : Heap) (entry : Nat) : Option (Nat × Heap) :=
  match hp.load entry with
  | none => none
  | some dup => some (hp.entries.length, { hp with entries := hp.entries ++ [dup] })

/-- Source `Entry.withLogger`. -/
def Entry.withLogger (hp : Heap) (entry : Nat) (logger : Nat) : Option (Nat × Heap) :=
  match Entry.Dup hp entry with
  | none => none
  | some (dup, hp1) =>
    match hp1.load dup with
    | none => none
    | some d => some (dup, hp1.store dup { d with Logger := logger })

/-- Source `Entry.WithField`. -/
def Entry.WithField (E : Env) (hp : Heap) (entry : Nat) (key : GoString) (value : Value) :
    Option (Nat × Heap) :=
  let attr := slogAny key value
  match hp.load entry with
  | none => none
  | some en =>
    match Entry.withLogger hp entry (E.With en.Logger [attr]) with
    | none => none
    | some (e, hp1) =>
      match hp1.load e with
      | none => none
      | some ev =>
        let r := goAppend E hp1 ev.Data attr
        match r.2.load e with
        | none => none
        | some ev2 => some (e, r.2.store e { ev2 with Data := r.1 })

/-- Source `ErrorKey`. -/
def ErrorKey : GoString := ascii "error"

/-- Source `Entry.WithError`; the error value is an operand like any other. -/
def Entry.WithError (E : Env) (hp : Heap) (entry : Nat) (err : Value) : Option (Nat × Heap) :=
  Entry.WithField E hp entry ErrorKey err

/-- The loop of `Entry.WithFields` over the map's pairs in the order the
runtime iterates them: each pair is appended to `e.Data` and to the local
`attrs`. -/
def withFieldsLoop (E : Env) (e : Nat) :
    List (GoString × Value) → Heap → List Attr → Option (Heap × List Attr)
  | [], hp, attrs => some (hp, attrs)
  | (key, value) :: rest, hp, attrs =>
    let attr := slogAny key value
    match hp.load e with
    | none => none
    | some ev =>
      let r := goAppend E hp ev.Data attr
      match r.2.load e with
      | none => none
      | some ev2 =>
        withFieldsLoop E e rest (r.2.store e { ev2 with Data := r.1 }) (attrs ++ [attr])

/-- Source `Entry.WithFields`; `fields` lists the map's pairs in iteration
order. -/
def Entry.WithFields (E : Env) (hp : Heap) (entry : Nat) (fields : List (GoString × Value)) :
    Option (Nat × Heap) :=
  match Entry.Dup hp entry with
  | none => none
  | some (e, hp1) =>
    match withFieldsLoop E e fields hp1 [] with
    | none => none
    | some (hp2, attrs) =>
      match hp2.load entry, hp2.load e with
      | some en, some ev => some (e, hp2.store e { ev with Logger := E.With en.Logger attrs })
      | _, _ => none

/-- Source `Entry.WithContext`. -/
def Entry.WithContext (hp : Heap) (entry : Nat) (ctx : Logrus2Slog.Context) : Option (Nat × Heap) :=
  match Entry.Dup hp entry with
  | none => none
  | some (dup, hp1) =>
    match hp1.load dup with
    | none => none
    | some d => some (dup, hp1.store dup { d with Context := ctx })

/-! ## Emission -/

/-- Modelled from the spec: the type `LogFunction` is declared outside src;
"a zero-argument function returning a sequence of values to log". `id` names
the function and `ret` is what a call of it returns. -/
structure LogFunction where
  id : Nat
  ret : List Value
  deriving DecidableEq

/-- What an emission method does to the outside, in order: a call of
`slog.Logger.Log` on a handle with (context, severity, message), or a call
of a producer function. -/
inductive Event where
  | record (logger : Nat) (ctx : Context) (sev : Int) (msg : GoString)
  | call (fn : Nat)
  deriving DecidableEq

/-- The value handed to `panic`: the argument slice, a string, a producer
function, or one of the two run-time errors the model can meet. -/
inductive Payload where
  | args (a : List Value)
  | text (s : GoString)
  | fn (f : LogFunction)
  | nilDeref
  | sliceBounds
  deriving DecidableEq

/-- How a call ends: it returns, the process exits through `os.Exit(code)`,
or a panic is raised. -/
inductive Outcome where
  | returned
  | exit (code : Int)
  | raised (p : Payload)
  deriving DecidableEq

/-- The events of a call and how it ended. -/
structure Run where
  events : List Event
  out : Outcome
  deriving DecidableEq

/-- A statement that does nothing. -/
def Run.skip : Run := ⟨[], Outcome.returned⟩

/-- Sequencing `r; k`: `k` runs only when `r` returned. -/
def Run.andThen (r k : Run) : Run :=
  match r.out with
  | Outcome.returned => ⟨r.events ++ k.events, k.out⟩
  | _ => r

/-- The call `os.Exit(code)`. -/
def osExit (code : Int) : Run := ⟨[], Outcome.exit code⟩

/-- The statement `panic(p)`. -/
def goPanic (p : Payload) : Run := ⟨[], Outcome.raised p⟩

/-- The records among the events. -/
def Run.records (r : Run) : List Event :=
  r.events.filter (fun ev => match ev with | Event.record _ _ _ _ => true | _ => false)

/-- The producer calls among the events. -/
def Run.calls (r : Run) : List Event :=
  r.events.filter (fun ev => match ev with | Event.call _ => true | _ => false)

/-- Source `Entry.Log`: one call of `entry.Logger.Log`, unconditionally. -/
def Entry.Log (E : Env) (hp : Heap) (entry : Nat) (level : Level) (args : List Value) : Run :=
  match hp.load entry with
  | none => goPanic Payload.nilDeref
  | some en =>
    ⟨[Event.record en.Logger en.Context (E.ToSlog level) (toString args)], Outcome.returned⟩

/-- Source `Entry.Trace`. -/
def Entry.Trace (E : Env) (hp : Heap) (entry : Nat) (args : List Value) : Run :=
  Entry.Log E hp entry Level.TraceLevel args

/-- Source `Entry.Debug`. -/
def Entry.Debug (E : Env) (hp : Heap) (entry : Nat) (args : List Value) : Run :=
  Entry.Log E hp entry Level.DebugLevel args

/-- Source `Entry.Info`. -/
def Entry.Info (E : Env) (hp : Heap) (entry : Nat) (args : List Value) : Run :=
  Entry.Log E hp entry Level.InfoLevel args

/-- Source `Entry.Print`. -/
def Entry.Print (E : Env) (hp : Heap) (entry : Nat) (args : List Value) : Run :=
  Entry.Info E hp entry args

/-- Source `Entry.Warn`. -/
def Entry.Warn (E : Env) (hp : Heap) (entry : Nat) (args : List Value) : Run :=
  Entry.Log E hp entry Level.WarnLevel args

/-- Source `Entry.Warning`. -/
def Entry.Warning (E : Env) (hp : Heap) (entry : Nat) (args : List Value) : Run :=
  Entry.Warn E hp entry args

/-- Source `Entry.Error`. -/
def Entry.Error (E : Env) (hp : Heap) (entry : Nat) (args : List Value) : Run :=
  Entry.Log E hp entry Level.ErrorLevel args

/-- Source `Entry.Fatal`. -/
def Entry.Fatal (E : Env) (hp : Heap) (entry : Nat) (args : List Value) : Run :=
  (Entry.Log E hp entry Level.FatalLevel args).andThen (osExit 1)

/-- Source `Entry.Panic`: `panic(args)`. -/
def Entry.Panic (E : Env) (hp : Heap) (entry : Nat) (args : List Value) : Run :=
  (Entry.Log E hp entry Level.PanicLevel args).andThen (goPanic (Payload.args args))

/-- Source `Entry.IsLevelEnabled`. -/
def Entry.IsLevelEnabled (E : Env) (hp : Heap) (entry : Nat) (level : Level) : Option Bool :=
  (hp.load entry).map (fun en => E.Enabled en.Logger en.Context (E.ToSlog level))

/-- Source `Entry.Logf`. -/
def Entry.Logf (E : Env) (hp : Heap) (entry : Nat) (level : Level) (format : GoString)
    (args : List Value) : Run :=
  match Entry.IsLevelEnabled E hp entry level, hp.load entry with
  | some true, some en =>
    ⟨[Event.record en.Logger en.Context (E.ToSlog level) (E.Sprintf format args)],
      Outcome.returned⟩
  | some false, _ => Run.skip
  | _, _ => goPanic Payload.nilDeref

/-- Source `Entry.Tracef`. -/
def Entry.Tracef (E : Env) (hp : Heap) (entry : Nat) (format : GoString)
    (args : List Value) : Run :=
  Entry.Logf E hp entry Level.TraceLevel format args

/-- Source `Entry.Debugf`. -/
def Entry.Debugf (E : Env) (hp : Heap) (entry : Nat) (format : GoString)
    (args : List Value) : Run :=
  Entry.Logf E hp entry Level.DebugLevel format args

/-- Source `Entry.Infof`. -/
def Entry.Infof (E : Env) (hp : Heap) (entry : Nat) (format : GoString)
    (args : List Value) : Run :=
  Entry.Logf E hp entry Level.InfoLevel format args

/-- Source `Entry.Printf`. -/
def Entry.Printf (E : Env) (hp : Heap) (entry : Nat) (format : GoString)
    (args : List Value) : Run :=
  Entry.Infof E hp entry format args

/-- Source `Entry.Warnf`. -/
def Entry.Warnf (E : Env) (hp : Heap) (entry : Nat) (format : GoString)
    (args : List Value) : Run :=
  Entry.Logf E hp entry Level.WarnLevel format args

/-- Source `Entry.Warningf`. -/
def Entry.Warningf (E : Env) (hp : Heap) (entry : Nat) (format : GoString)
    (args : List Value) : Run :=
  Entry.Warnf E hp entry format args

/-- Source `Entry.Errorf`. -/
def Entry.Errorf (E : Env) (hp : Heap) (entry : Nat) (format : GoString)
    (args : List Value) : Run :=
  Entry.Logf E hp entry Level.ErrorLevel format args

/-- Source `Entry.Fatalf`. -/
def Entry.Fatalf (E : Env) (hp : Heap) (entry : Nat) (format : GoString)
    (args : List Value) : Run :=
  (Entry.Logf E hp entry Level.FatalLevel format args).andThen (osExit 1)

/-- Source `Entry.Panicf`: `panic(fmt.Sprintf(format, args...))`. -/
def Entry.Panicf (E : Env) (hp : Heap) (entry : Nat) (format : GoString)
    (args : List Value) : Run :=
  (Entry.Logf E hp entry Level.PanicLevel format args).andThen
    (goPanic (Payload.text (E.Sprintf format args)))

/-- Source `Entry.Logln`: `entry.Log(level, sprintlnn(args...))` under the
enablement check. -/
def Entry.Logln (E : Env) (hp : Heap) (entry : Nat) (level : Level) (args : List Value) : Run :=
  match Entry.IsLevelEnabled E hp entry level with
  | none => goPanic Payload.nilDeref
  | some false => Run.skip
  | some true =>
    match sprintlnn args with
    | none => goPanic Payload.sliceBounds
    | some msg => Entry.Log E hp entry level [Value.str msg]

/-- Source `Entry.Traceln`. -/
def Entry.Traceln (E : Env) (hp : Heap) (entry : Nat) (args : List Value) : Run :=
  Entry.Logln E hp entry Level.TraceLevel args

/-- Source `Entry.Debugln`. -/
def Entry.Debugln (E : Env) (hp : Heap) (entry : Nat) (args : List Value) : Run :=
  Entry.Logln E hp entry Level.DebugLevel args

/-- Source `Entry.Infoln`. -/
def Entry.Infoln (E : Env) (hp : Heap) (entry : Nat) (args : List Value) : Run :=
  Entry.Logln E hp entry Level.InfoLevel args

/-- Source `Entry.Println`. -/
def Entry.Println (E : Env) (hp : Heap) (entry : Nat) (args : List Value) : Run :=
  Entry.Infoln E hp entry args

/-- Source `Entry.Warnln`. -/
def Entry.Warnln (E : Env) (hp : Heap) (entry : Nat) (args : List Value) : Run :=
  Entry.Logln E hp entry Level.WarnLevel args

/-- Source `Entry.Warningln`. -/
def Entry.Warningln (E : Env) (hp : Heap) (entry : Nat) (args : List Value) : Run :=
  Entry.Warnln E hp entry args

/-- Source `Entry.Errorln`. -/
def Entry.Errorln (E : Env) (hp : Heap) (entry : Nat) (args : List Value) : Run :=
  Entry.Logln E hp entry Level.ErrorLevel args

/-- Source `Entry.Fatalln`. -/
def Entry.Fatalln (E : Env) (hp : Heap) (entry : Nat) (args : List Value) : Run :=
  (Entry.Logln E hp entry Level.FatalLevel args).andThen (osExit 1)

/-- Source `Entry.Panicln`: the body is the `Logln` call alone. -/
def Entry.Panicln (E : Env) (hp : Heap) (entry : Nat) (args : List Value) : Run :=
  Entry.Logln E hp entry Level.PanicLevel args

/-! ## Logger -/

/-- Source `Logger`: the struct embeds one `*Entry`. -/
structure Logger where
  Entry : Nat
  deriving DecidableEq

/-- Source `New`. -/
def New (hp : Heap) (ctx : Context) (delegate : Nat) : Logger × Heap :=
  let r := entryOf hp ctx delegate
  (⟨r.1⟩, r.2)

/-- Source `NewEntry`. -/
def NewEntry (logger : Logger) : Nat := logger.Entry

/-- Source `Logger.LogFn`: `fn` is called, once, only under the enablement
check; its result goes through `Log`. -/
def Logger.LogFn (E : Env) (hp : Heap) (logger : Logger) (level : Level) (fn : LogFunction) :
    Run :=
  match Entry.IsLevelEnabled E hp logger.Entry level with
  | none => goPanic Payload.nilDeref
  | some false => Run.skip
  | some true =>
    Run.andThen ⟨[Event.call fn.id], Outcome.returned⟩ (Entry.Log E hp logger.Entry level fn.ret)

/-- Source `Logger.TraceFn`. -/
def Logger.TraceFn (E : Env) (hp : Heap) (logger : Logger) (fn : LogFunction) : Run :=
  Logger.LogFn E hp logger Level.TraceLevel fn

/-- Source `Logger.DebugFn`. -/
def Logger.DebugFn (E : Env) (hp : Heap) (logger : Logger) (fn : LogFunction) : Run :=
  Logger.LogFn E hp logger Level.DebugLevel fn

/-- Source `Logger.InfoFn`. -/
def Logger.InfoFn (E : Env) (hp : Heap) (logger : Logger) (fn : LogFunction) : Run :=
  Logger.LogFn E hp logger Level.InfoLevel fn

/-- Source `Logger.PrintFn`. -/
def Logger.PrintFn (E : Env) (hp : Heap) (logger : Logger) (fn : LogFunction) : Run :=
  Logger.InfoFn E hp logger fn

/-- Source `Logger.WarnFn`. -/
def Logger.WarnFn (E : Env) (hp : Heap) (logger : Logger) (fn : LogFunction) : Run :=
  Logger.LogFn E hp logger Level.WarnLevel fn

/-- Source `Logger.WarningFn`. -/
def Logger.WarningFn (E : Env) (hp : Heap) (logger : Logger) (fn : LogFunction) : Run :=
  Logger.WarnFn E hp logger fn

/-- Source `Logger.ErrorFn`. -/
def Logger.ErrorFn (E : Env) (hp : Heap) (logger : Logger) (fn : LogFunction) : Run :=
  Logger.LogFn E hp logger Level.ErrorLevel fn

/-- Source `Logger.FatalFn`. -/
def Logger.FatalFn (E : Env) (hp : Heap) (logger : Logger) (fn : LogFunction) : Run :=
  (Logger.LogFn E hp logger Level.FatalLevel fn).andThen (osExit 1)

/-- Source `Logger.PanicFn`: `panic(fn)`. -/
def Logger.PanicFn (E : Env) (hp : Heap) (logger : Logger) (fn : LogFunction) : Run :=
  (Logger.LogFn E hp logger Level.PanicLevel fn).andThen (goPanic (Payload.fn fn))

/-! ## The statements of the specification, and sample inputs -/

/-- Plain concatenation of texts, nothing in between. -/
def concatAll : List GoString → GoString
  | [] => []
  | x :: rest => x ++ concatAll rest

/-- Renderings in order with one space between two adjacent operands exactly
when neither of the two is a string. -/
def spacedUnlessString : List Value → GoString
  | [] => []
  | [x] => printArg x
  | x :: y :: rest =>
    printArg x ++ (if isString x = false ∧ isString y = false then [32] else [])
      ++ spacedUnlessString (y :: rest)

/-- A backend for sample runs: binding `n` attributes moves a handle by `n`,
a severity is enabled from `threshold` upwards, levels map to multiples of
four, capacities double on reallocation, and the formatter returns the format
(what `fmt.Sprintf` does for a format without verbs and no operands). -/
def sampleEnv (threshold : Int) : Env where
  With := fun h attrs => h + attrs.length
  Enabled := fun _ _ sev => decide (threshold ≤ sev)
  ToSlog := fun l =>
    match l with
    | Level.TraceLevel => -8
    | Level.DebugLevel => -4
    | Level.InfoLevel => 0
    | Level.WarnLevel => 4
    | Level.ErrorLevel => 8
    | Level.FatalLevel => 12
    | Level.PanicLevel => 16
  Sprintf := fun format _ => format
  growCap := fun oldCap _ => 2 * oldCap

/-- A heap with one root entry (handle 7, background context, nil `Data`),
as `New` leaves it. -/
def rootHeap : Heap := (New ⟨[], []⟩ Context.nil 7).2

/-- The heap after three fields were attached, one after the other, starting
from the root: entry `3` carries `k1, k2, k3`. -/
def chainHeap : Option Heap :=
  match Entry.WithField (sampleEnv 0) rootHeap 0 (ascii "k1") (Value.int 1) with
  | none => none
  | some (e1, h1) =>
    match Entry.WithField (sampleEnv 0) h1 e1 (ascii "k2") (Value.int 2) with
    | none => none
    | some (e2, h2) =>
      match Entry.WithField (sampleEnv 0) h2 e2 (ascii "k3") (Value.int 3) with
      | none => none
      | some (_, h3) => some h3

/-- The heap `chainHeap` computes, written out: entry `3` has length 3 in an
array of capacity 4. -/
def chainHeapLit : Heap where
  entries :=
    [⟨7, Context.background, Slice.nil⟩, ⟨8, Context.background, ⟨0, 0, 1, 1⟩⟩,
     ⟨9, Context.background, ⟨1, 0, 2, 2⟩⟩, ⟨10, Context.background, ⟨2, 0, 3, 4⟩⟩]
  arrays :=
    [[⟨ascii "k1", Value.int 1⟩],
     [⟨ascii "k1", Value.int 1⟩, ⟨ascii "k2", Value.int 2⟩],
     [⟨ascii "k1", Value.int 1⟩, ⟨ascii "k2", Value.int 2⟩, ⟨ascii "k3", Value.int 3⟩,
      Attr.zero]]

/-! ## Text rendering -/

theorem doPrint_succ (k : Nat) (prev : Bool) (x : Value) (rest : List Value) :
    doPrint (k + 1) prev (x :: rest)
      = (if isString x = false ∧ prev = false then [32] else [])
          ++ spacedUnlessString (x :: rest) := by
  induction rest generalizing k prev x with
  | nil => simp [doPrint, spacedUnlessString]
  | cons y rest ih =>
    rw [doPrint, ih (k + 1) (isString x) y]
    simp [spacedUnlessString, and_comm]

theorem Sprint_eq_spaced (a : List Value) : Sprint a = spacedUnlessString a := by
  cases a with
  | nil => rfl
  | cons x rest =>
    cases rest with
    | nil => simp [Sprint, doPrint, spacedUnlessString]
    | cons y rest =>
      rw [Sprint, doPrint, doPrint_succ 0 (isString x) y rest]
      simp [spacedUnlessString, and_comm]

theorem doPrintlnLoop_succ (k : Nat) (a : List Value) :
    doPrintlnLoop (k + 1) a = concatAll (a.map (fun v => [32] ++ printArg v)) := by
  induction a generalizing k with
  | nil => rfl
  | cons x rest ih => simp [doPrintlnLoop, concatAll, ih (k + 1)]

theorem joinWith_cons (sep x : GoString) (rest : List GoString) :
    joinWith sep (x :: rest) = x ++ concatAll (rest.map (fun t => sep ++ t)) := by
  induction rest generalizing x with
  | nil => simp [joinWith, concatAll]
  | cons y rest ih => simp [joinWith, concatAll, ih y]

theorem doPrintlnLoop_eq_join (a : List Value) :
    doPrintlnLoop 0 a = joinWith [32] (a.map printArg) := by
  cases a with
  | nil => rfl
  | cons x rest =>
    rw [doPrintlnLoop, doPrintlnLoop_succ 0 rest, List.map_cons, joinWith_cons]
    simp [List.map_map, Function.comp_def]

theorem sprintlnn_eq_join (args : List Value) :
    sprintlnn args = some (joinWith [32] (args.map printArg)) := by
  simp only [sprintlnn, Sprintln, sliceTo, doPrintlnLoop_eq_join]
  simp

theorem toString_single_str (s : GoString) : toString [Value.str s] = s := by
  simp [toString, Sprint, doPrint, printArg]

/-! ## Emission -/

theorem Log_run (E : Env) (hp : Heap) (e : Nat) (en : Entry) (L : Level) (args : List Value)
    (hload : hp.load e = some en) :
    Entry.Log E hp e L args
      = ⟨[Event.record en.Logger en.Context (E.ToSlog L) (toString args)], Outcome.returned⟩ := by
  simp [Entry.Log, hload]

theorem Logf_run (E : Env) (hp : Heap) (e : Nat) (en : Entry) (L : Level) (format : GoString)
    (args : List Value) (hload : hp.load e = some en) :
    Entry.Logf E hp e L format args
      = ⟨if E.Enabled en.Logger en.Context (E.ToSlog L) = true then
            [Event.record en.Logger en.Context (E.ToSlog L) (E.Sprintf format args)]
          else [], Outcome.returned⟩ := by
  cases h : E.Enabled en.Logger en.Context (E.ToSlog L) <;>
    simp [Entry.Logf, Entry.IsLevelEnabled, hload, h, Run.skip]

theorem Logln_run (E : Env) (hp : Heap) (e : Nat) (en : Entry) (L : Level) (args : List Value)
    (hload : hp.load e = some en) :
    Entry.Logln E hp e L args
      = ⟨if E.Enabled en.Logger en.Context (E.ToSlog L) = true then
            [Event.record en.Logger en.Context (E.ToSlog L) (joinWith [32] (args.map printArg))]
          else [], Outcome.returned⟩ := by
  cases h : E.Enabled en.Logger en.Context (E.ToSlog L) <;>
    simp [Entry.Logln, Entry.IsLevelEnabled, hload, h, Run.skip, sprintlnn_eq_join,
      Log_run E hp e en L _ hload, toString_single_str]

theorem LogFn_run (E : Env) (hp : Heap) (e : Nat) (en : Entry) (L : Level) (fn : LogFunction)
    (hload : hp.load e = some en) :
    Logger.LogFn E hp ⟨e⟩ L fn
      = ⟨if E.Enabled en.Logger en.Context (E.ToSlog L) = true then
            [Event.call fn.id,
             Event.record en.Logger en.Context (E.ToSlog L) (toString fn.ret)]
          else [], Outcome.returned⟩ := by
  cases h : E.Enabled en.Logger en.Context (E.ToSlog L) <;>
    simp [Logger.LogFn, Entry.IsLevelEnabled, hload, h, Run.skip, Run.andThen,
      Log_run E hp e en L _ hload]

/-- C3: when the backend reports level `L` as disabled for the entry's
context, `Logf` and `Logln` forward no record, and `LogFn` forwards no record
and does not call the producer; each of them just returns. -/
theorem disabled_level_emits_nothing (E : Env) (hp : Heap) (e : Nat) (en : Entry) (L : Level)
    (format : GoString) (args : List Value) (fn : LogFunction)
    (hload : hp.load e = some en)
    (hoff : E.Enabled en.Logger en.Context (E.ToSlog L) = false) :
    Entry.Logf E hp e L format args = Run.skip ∧
    (Entry.Logf E hp e L format args).records.length = 0 ∧
    Entry.Logln E hp e L args = Run.skip ∧
    (Entry.Logln E hp e L args).records.length = 0 ∧
    Logger.LogFn E hp ⟨e⟩ L fn = Run.skip ∧
    (Logger.LogFn E hp ⟨e⟩ L fn).records.length = 0 ∧
    (Logger.LogFn E hp ⟨e⟩ L fn).calls.length = 0 := by
  rw [Logf_run E hp e en L format args hload, Logln_run E hp e en L args hload,
    LogFn_run E hp e en L fn hload]
  simp [hoff, Run.skip, Run.records, Run.calls]

/-- C3, at a sample input: the root entry with every level disabled, an
error-level call of each of the three methods. -/
theorem disabled_level_emits_nothing_witness :
    Entry.Logf (sampleEnv 100) rootHeap 0 Level.ErrorLevel (ascii "x") [] = Run.skip ∧
    (Entry.Logf (sampleEnv 100) rootHeap 0 Level.ErrorLevel (ascii "x") []).records.length = 0 ∧
    Entry.Logln (sampleEnv 100) rootHeap 0 Level.ErrorLevel [] = Run.skip ∧
    (Entry.Logln (sampleEnv 100) rootHeap 0 Level.ErrorLevel []).records.length = 0 ∧
    Logger.LogFn (sampleEnv 100) rootHeap ⟨0⟩ Level.ErrorLevel ⟨1, [Value.int 5]⟩ = Run.skip ∧
    (Logger.LogFn (sampleEnv 100) rootHeap ⟨0⟩ Level.ErrorLevel ⟨1, [Value.int 5]⟩).records.length
      = 0 ∧
    (Logger.LogFn (sampleEnv 100) rootHeap ⟨0⟩ Level.ErrorLevel ⟨1, [Value.int 5]⟩).calls.length
      = 0 :=
  disabled_level_emits_nothing (sampleEnv 100) rootHeap 0 ⟨7, Context.background, Slice.nil⟩
    Level.ErrorLevel (ascii "x") [] ⟨1, [Value.int 5]⟩ (by decide) (by decide)

/-- C4, as stated, fails: for the operands `(1, 2)` the one record `Log`
forwards carries the message "1 2", not the plain concatenation "12". -/
theorem Log_separates_adjacent_numbers :
    Entry.Log (sampleEnv 0) rootHeap 0 Level.InfoLevel [Value.int 1, Value.int 2]
      = ⟨[Event.record 7 Context.background 0 (ascii "1 2")], Outcome.returned⟩ ∧
    concatAll ([Value.int 1, Value.int 2].map printArg) = ascii "12" ∧
    ascii "1 2" ≠ concatAll ([Value.int 1, Value.int 2].map printArg) := by
  decide

/-- C4, amended: whether or not the level is enabled, `Log` forwards exactly
one record (the entry's handle and context, the mapped severity, the message)
and returns; the message is the renderings of the operands in order, with one
space between two adjacent operands exactly when neither is a string. -/
theorem Log_forwards_one_record (E : Env) (hp : Heap) (e : Nat) (en : Entry) (L : Level)
    (args : List Value) (hload : hp.load e = some en) :
    Entry.Log E hp e L args
      = ⟨[Event.record en.Logger en.Context (E.ToSlog L) (spacedUnlessString args)],
          Outcome.returned⟩ ∧
    (Entry.Log E hp e L args).records.length = 1 := by
  rw [Log_run E hp e en L args hload, toString, Sprint_eq_spaced]
  simp [Run.records]

/-- C4, amended, at a sample input: the operands `("a", "b")` at a disabled
level give one record with the message "ab". -/
theorem Log_forwards_one_record_witness :
    Entry.IsLevelEnabled (sampleEnv 100) rootHeap 0 Level.DebugLevel = some false ∧
    spacedUnlessString [Value.str (ascii "a"), Value.str (ascii "b")] = ascii "ab" ∧
    Entry.Log (sampleEnv 100) rootHeap 0 Level.DebugLevel
        [Value.str (ascii "a"), Value.str (ascii "b")]
      = ⟨[Event.record 7 Context.background (-4)
            (spacedUnlessString [Value.str (ascii "a"), Value.str (ascii "b")])],
          Outcome.returned⟩ ∧
    (Entry.Log (sampleEnv 100) rootHeap 0 Level.DebugLevel
        [Value.str (ascii "a"), Value.str (ascii "b")]).records.length = 1 :=
  ⟨by decide, by decide,
    Log_forwards_one_record (sampleEnv 100) rootHeap 0 ⟨7, Context.background, Slice.nil⟩
      Level.DebugLevel [Value.str (ascii "a"), Value.str (ascii "b")] (by decide)⟩

/-- C5: at an enabled level `Logln` forwards exactly one record and returns;
the message is the renderings of the operands joined by one space between
every two adjacent operands, whatever their types, without the newline
`Sprintln` ends with; `sprintlnn` never slices out of range (it returns for
every operand list, the empty one included). -/
theorem Logln_joins_with_spaces (E : Env) (hp : Heap) (e : Nat) (en : Entry) (L : Level)
    (args : List Value) (hload : hp.load e = some en)
    (hon : E.Enabled en.Logger en.Context (E.ToSlog L) = true) :
    sprintlnn args = some (joinWith [32] (args.map printArg)) ∧
    Entry.Logln E hp e L args
      = ⟨[Event.record en.Logger en.Context (E.ToSlog L) (joinWith [32] (args.map printArg))],
          Outcome.returned⟩ ∧
    (Entry.Logln E hp e L args).records.length = 1 := by
  rw [Logln_run E hp e en L args hload]
  simp [hon, Run.records, sprintlnn_eq_join]

/-- C5, at a sample input: the operands `("a", 1, true)` at the enabled info
level give the message "a 1 true". -/
theorem Logln_joins_with_spaces_witness :
    joinWith [32] ([Value.str (ascii "a"), Value.int 1, Value.bool true].map printArg)
      = ascii "a 1 true" ∧
    sprintlnn [Value.str (ascii "a"), Value.int 1, Value.bool true]
      = some (joinWith [32] ([Value.str (ascii "a"), Value.int 1, Value.bool true].map printArg)) ∧
    Entry.Logln (sampleEnv 0) rootHeap 0 Level.InfoLevel
        [Value.str (ascii "a"), Value.int 1, Value.bool true]
      = ⟨[Event.record 7 Context.background 0
            (joinWith [32] ([Value.str (ascii "a"), Value.int 1, Value.bool true].map printArg))],
          Outcome.returned⟩ ∧
    (Entry.Logln (sampleEnv 0) rootHeap 0 Level.InfoLevel
        [Value.str (ascii "a"), Value.int 1, Value.bool true]).records.length = 1 :=
  ⟨by decide,
    Logln_joins_with_spaces (sampleEnv 0) rootHeap 0 ⟨7, Context.background, Slice.nil⟩
      Level.InfoLevel [Value.str (ascii "a"), Value.int 1, Value.bool true]
      (by decide) (by decide)⟩

/-- C6, as stated, fails: with the fatal level disabled, `Fatalf` and
`Fatalln` forward no record before the termination request. -/
theorem Fatalf_disabled_forwards_nothing :
    Entry.IsLevelEnabled (sampleEnv 100) rootHeap 0 Level.FatalLevel = some false ∧
    Entry.Fatalf (sampleEnv 100) rootHeap 0 (ascii "down") [] = ⟨[], Outcome.exit 1⟩ ∧
    (Entry.Fatalf (sampleEnv 100) rootHeap 0 (ascii "down") []).records.length = 0 ∧
    Entry.Fatalln (sampleEnv 100) rootHeap 0 [Value.str (ascii "down")]
      = ⟨[], Outcome.exit 1⟩ := by
  decide

/-- C6, amended: `Fatal` forwards exactly one record and then requests
termination with status 1; `Fatalf` and `Fatalln` forward exactly one record
when the fatal level is enabled and none when it is disabled, and in both
cases request termination, once, with status 1. -/
theorem Fatal_family_exits (E : Env) (hp : Heap) (e : Nat) (en : Entry) (format : GoString)
    (fargs args : List Value) (hload : hp.load e = some en) :
    Entry.Fatal E hp e args
      = ⟨[Event.record en.Logger en.Context (E.ToSlog Level.FatalLevel) (toString args)],
          Outcome.exit 1⟩ ∧
    Entry.Fatalf E hp e format fargs
      = ⟨if E.Enabled en.Logger en.Context (E.ToSlog Level.FatalLevel) = true then
            [Event.record en.Logger en.Context (E.ToSlog Level.FatalLevel)
              (E.Sprintf format fargs)]
          else [], Outcome.exit 1⟩ ∧
    Entry.Fatalln E hp e args
      = ⟨if E.Enabled en.Logger en.Context (E.ToSlog Level.FatalLevel) = true then
            [Event.record en.Logger en.Context (E.ToSlog Level.FatalLevel)
              (joinWith [32] (args.map printArg))]
          else [], Outcome.exit 1⟩ := by
  simp [Entry.Fatal, Entry.Fatalf, Entry.Fatalln, Log_run E hp e en _ _ hload,
    Logf_run E hp e en _ _ _ hload, Logln_run E hp e en _ _ hload, Run.andThen, osExit]

/-- C6, amended, at a sample input: the three fatal methods on the root
entry with the fatal level enabled; each forwards one record, then exits. -/
theorem Fatal_family_exits_witness :
    Entry.Fatal (sampleEnv 0) rootHeap 0 [Value.str (ascii "disk"), Value.int 1]
      = ⟨[Event.record 7 Context.background 12 (ascii "disk1")], Outcome.exit 1⟩ ∧
    Entry.Fatalf (sampleEnv 0) rootHeap 0 (ascii "down") []
      = ⟨[Event.record 7 Context.background 12 (ascii "down")], Outcome.exit 1⟩ ∧
    Entry.Fatalln (sampleEnv 0) rootHeap 0 [Value.str (ascii "disk"), Value.int 1]
      = ⟨[Event.record 7 Context.background 12 (ascii "disk 1")], Outcome.exit 1⟩ :=
  Fatal_family_exits (sampleEnv 0) rootHeap 0 ⟨7, Context.background, Slice.nil⟩ (ascii "down")
    [] [Value.str (ascii "disk"), Value.int 1] (by decide)

/-- C7, as stated, fails: the signal `Panicf` raises carries the formatted
message, a string, not the argument list. -/
theorem Panicf_payload_is_message :
    Entry.Panicf (sampleEnv 0) rootHeap 0 (ascii "boom") []
      = ⟨[Event.record 7 Context.background 16 (ascii "boom")],
          Outcome.raised (Payload.text (ascii "boom"))⟩ ∧
    (Entry.Panicf (sampleEnv 0) rootHeap 0 (ascii "boom") []).out
      ≠ Outcome.raised (Payload.args []) := by
  decide

/-- C7, amended: `Panic(args)` forwards one record and then raises a signal
whose payload is the argument list `args`; `Panicf(format, args)` forwards
its record when the panic level is enabled (none otherwise) and then raises a
signal whose payload is the formatted message `Sprintf(format, args)`;
`Panicln(args)` forwards its record when the panic level is enabled and
returns without raising a signal. -/
theorem Panic_family_signals (E : Env) (hp : Heap) (e : Nat) (en : Entry) (format : GoString)
    (fargs args : List Value) (hload : hp.load e = some en) :
    Entry.Panic E hp e args
      = ⟨[Event.record en.Logger en.Context (E.ToSlog Level.PanicLevel) (toString args)],
          Outcome.raised (Payload.args args)⟩ ∧
    Entry.Panicf E hp e format fargs
      = ⟨if E.Enabled en.Logger en.Context (E.ToSlog Level.PanicLevel) = true then
            [Event.record en.Logger en.Context (E.ToSlog Level.PanicLevel)
              (E.Sprintf format fargs)]
          else [], Outcome.raised (Payload.text (E.Sprintf format fargs))⟩ ∧
    Entry.Panicln E hp e args
      = ⟨if E.Enabled en.Logger en.Context (E.ToSlog Level.PanicLevel) = true then
            [Event.record en.Logger en.Context (E.ToSlog Level.PanicLevel)
              (joinWith [32] (args.map printArg))]
          else [], Outcome.returned⟩ := by
  simp [Entry.Panic, Entry.Panicf, Entry.Panicln, Log_run E hp e en _ _ hload,
    Logf_run E hp e en _ _ _ hload, Logln_run E hp e en _ _ hload, Run.andThen, goPanic]

/-- C7, amended, at a sample input: the three panic methods on the root
entry with the panic level enabled. -/
theorem Panic_family_signals_witness :
    Entry.Panic (sampleEnv 0) rootHeap 0 [Value.str (ascii "disk"), Value.int 1]
      = ⟨[Event.record 7 Context.background 16 (ascii "disk1")],
          Outcome.raised (Payload.args [Value.str (ascii "disk"), Value.int 1])⟩ ∧
    Entry.Panicf (sampleEnv 0) rootHeap 0 (ascii "boom") []
      = ⟨[Event.record 7 Context.background 16 (ascii "boom")],
          Outcome.raised (Payload.text (ascii "boom"))⟩ ∧
    Entry.Panicln (sampleEnv 0) rootHeap 0 [Value.str (ascii "disk"), Value.int 1]
      = ⟨[Event.record 7 Context.background 16 (ascii "disk 1")], Outcome.returned⟩ :=
  Panic_family_signals (sampleEnv 0) rootHeap 0 ⟨7, Context.background, Slice.nil⟩
    (ascii "boom") [] [Value.str (ascii "disk"), Value.int 1] (by decide)

/-- C8, as stated, fails: with the panic level disabled `Panicf` forwards no
record and still raises its signal. -/
theorem Panicf_disabled_still_raises :
    Entry.IsLevelEnabled (sampleEnv 100) rootHeap 0 Level.PanicLevel = some false ∧
    Entry.Panicf (sampleEnv 100) rootHeap 0 (ascii "boom") []
      = ⟨[], Outcome.raised (Payload.text (ascii "boom"))⟩ ∧
    (Entry.Panicf (sampleEnv 100) rootHeap 0 (ascii "boom") []).out ≠ Outcome.returned := by
  decide

/-- C8, amended: the signal of `Panicf` does not depend on the enablement
check; when the backend reports the panic level as disabled, `Panicf`
forwards no record and raises the signal carrying the formatted message. -/
theorem Panicf_disabled_run (E : Env) (hp : Heap) (e : Nat) (en : Entry) (format : GoString)
    (args : List Value) (hload : hp.load e = some en)
    (hoff : E.Enabled en.Logger en.Context (E.ToSlog Level.PanicLevel) = false) :
    Entry.Panicf E hp e format args
      = ⟨[], Outcome.raised (Payload.text (E.Sprintf format args))⟩ := by
  simp [Entry.Panicf, Logf_run E hp e en _ _ _ hload, Run.andThen, goPanic, hoff]

/-- C8, amended, at a sample input: the root entry with every level
disabled. -/
theorem Panicf_disabled_run_witness :
    Entry.Panicf (sampleEnv 100) rootHeap 0 (ascii "halt") []
      = ⟨[], Outcome.raised (Payload.text (ascii "halt"))⟩ :=
  Panicf_disabled_run (sampleEnv 100) rootHeap 0 ⟨7, Context.background, Slice.nil⟩
    (ascii "halt") [] (by decide) (by decide)

/-! ## Slices and the heap -/

theorem take_drop_set_succ (A : List Attr) (off len : Nat) (x : Attr)
    (h : off + len < A.length) :
    ((A.set (off + len) x).drop off).take (len + 1) = (A.drop off).take len ++ [x] := by
  apply List.ext_getElem?
  intro i
  simp only [List.getElem?_take, List.getElem?_drop, List.getElem?_set, List.getElem?_append,
    List.length_take, List.length_drop]
  have hlen : min len (A.length - off) = len := by omega
  rw [hlen]
  by_cases h1 : i < len
  · have h2 : ¬ (off + len = off + i) := by omega
    have h3 : i < len + 1 := by omega
    simp [h1, h2, h3]
  · by_cases h4 : i = len
    · subst h4
      simp [h]
    · have h5 : ¬ (i < len + 1) := by omega
      simp [h1, h5]
      omega

theorem take_drop_set_same (A : List Attr) (off len : Nat) (x : Attr) :
    ((A.set (off + len) x).drop off).take len = (A.drop off).take len := by
  apply List.ext_getElem?
  intro i
  simp only [List.getElem?_take, List.getElem?_drop, List.getElem?_set]
  by_cases h1 : i < len
  · have h2 : ¬ (off + len = off + i) := by omega
    simp [h1, h2]
  · simp [h1]

theorem getD_set_self (l : List (List Attr)) (i : Nat) (a : List Attr) (h : i < l.length) :
    (l.set i a).getD i [] = a := by
  simp [List.getD_eq_getElem?_getD, h]

theorem lt_of_getD_length_pos (l : List (List Attr)) (i : Nat)
    (h : 0 < (l.getD i []).length) : i < l.length := by
  by_contra hc
  have hnil : l.getD i [] = [] := by
    simp [List.getD_eq_getElem?_getD, List.getElem?_eq_none (Nat.le_of_not_lt hc)]
  rw [hnil] at h
  exact Nat.lt_irrefl 0 h

theorem read_length (hp : Heap) (s : Slice) (hv : s.Valid hp) : (s.read hp).length = s.len := by
  obtain ⟨h1, h2⟩ := hv
  simp only [Slice.read, List.length_take, List.length_drop]
  by_cases hc : 0 < s.cap
  · have := h2 hc
    omega
  · omega

theorem goAppend_entries (E : Env) (hp : Heap) (s : Slice) (x : Attr) :
    (goAppend E hp s x).2.entries = hp.entries := by
  unfold goAppend
  split <;> rfl

theorem goAppend_read_new (E : Env) (hp : Heap) (s : Slice) (x : Attr) (hv : s.Valid hp) :
    (goAppend E hp s x).1.read (goAppend E hp s x).2 = s.read hp ++ [x] := by
  have hlen := read_length hp s hv
  obtain ⟨h1, h2⟩ := hv
  unfold goAppend
  split
  · rename_i hc
    have hb := h2 (by omega)
    have hi : s.arr < hp.arrays.length := lt_of_getD_length_pos _ _ (by omega)
    simp only [Slice.read, getD_set_self _ _ _ hi]
    exact take_drop_set_succ _ _ _ _ (by omega)
  · simp only [Slice.read, List.drop_zero] at hlen ⊢
    generalize List.take s.len (List.drop s.off (hp.arrays.getD s.arr [])) = T at hlen ⊢
    generalize List.replicate
      (max (s.len + 1) (E.growCap s.cap (s.len + 1)) - (s.len + 1)) Attr.zero = R
    have hget : (hp.arrays ++ [T ++ [x] ++ R]).getD hp.arrays.length [] = T ++ [x] ++ R := by
      simp [List.getD_eq_getElem?_getD]
    rw [hget, List.take_append_of_le_length (by simp [hlen]),
      List.take_of_length_le (by simp [hlen])]

theorem goAppend_read_old (E : Env) (hp : Heap) (s : Slice) (x : Attr) (hv : s.Valid hp) :
    s.read (goAppend E hp s x).2 = s.read hp := by
  obtain ⟨h1, h2⟩ := hv
  unfold goAppend
  split
  · rename_i hc
    have hb := h2 (by omega)
    have hi : s.arr < hp.arrays.length := lt_of_getD_length_pos _ _ (by omega)
    simp only [Slice.read, getD_set_self _ _ _ hi]
    exact take_drop_set_same _ _ _ _
  · rename_i hc
    by_cases hcap : 0 < s.cap
    · have hb := h2 hcap
      have hi : s.arr < hp.arrays.length := lt_of_getD_length_pos _ _ (by omega)
      simp only [Slice.read]
      rw [List.getD_append _ _ _ _ hi]
    · have h0 : s.len = 0 := by omega
      simp [Slice.read, h0]

theorem goAppend_valid_old (E : Env) (hp : Heap) (s : Slice) (x : Attr) (hv : s.Valid hp) :
    s.Valid (goAppend E hp s x).2 := by
  obtain ⟨h1, h2⟩ := hv
  refine ⟨h1, fun hcap => ?_⟩
  have hb := h2 hcap
  have hi : s.arr < hp.arrays.length := lt_of_getD_length_pos _ _ (by omega)
  unfold goAppend
  split
  · simp only [getD_set_self _ _ _ hi, List.length_set]
    exact hb
  · simp only []
    rw [List.getD_append _ _ _ _ hi]
    exact hb

theorem goAppend_heap_irrel (E : Env) (es1 es2 : List Entry) (A : List (List Attr)) (s : Slice)
    (x : Attr) :
    (goAppend E ⟨es1, A⟩ s x).1 = (goAppend E ⟨es2, A⟩ s x).1 ∧
    (goAppend E ⟨es1, A⟩ s x).2.arrays = (goAppend E ⟨es2, A⟩ s x).2.arrays := by
  unfold goAppend
  split <;> simp [Slice.read]

theorem load_lt (hp : Heap) (e : Nat) (en : Entry) (hload : hp.load e = some en) :
    e < hp.entries.length := by
  unfold Heap.load at hload
  by_contra hc
  rw [List.getElem?_eq_none (Nat.le_of_not_lt hc)] at hload
  exact Option.noConfusion hload

theorem Dup_run (hp : Heap) (e : Nat) (en : Entry) (hload : hp.load e = some en) :
    Entry.Dup hp e = some (hp.entries.length, ⟨hp.entries ++ [en], hp.arrays⟩) := by
  simp [Entry.Dup, hload]

theorem WithField_run (E : Env) (hp : Heap) (e : Nat) (en : Entry) (k : GoString) (v : Value)
    (hload : hp.load e = some en) :
    Entry.WithField E hp e k v
      = some (hp.entries.length,
          ⟨hp.entries ++ [⟨E.With en.Logger [slogAny k v], en.Context,
              (goAppend E hp en.Data (slogAny k v)).1⟩],
            (goAppend E hp en.Data (slogAny k v)).2.arrays⟩) := by
  obtain ⟨es, A⟩ := hp
  have hload2 : es[e]? = some en := hload
  obtain ⟨h1, h2⟩ := goAppend_heap_irrel E
    (es ++ [⟨E.With en.Logger [slogAny k v], en.Context, en.Data⟩]) es A en.Data (slogAny k v)
  simp [Entry.WithField, Entry.withLogger, Entry.Dup, Heap.load, Heap.store, hload2,
    goAppend_entries, h1, h2]

theorem read_congr (hp hp2 : Heap) (s : Slice) (h : hp2.arrays = hp.arrays) :
    s.read hp2 = s.read hp := by
  simp [Slice.read, h]

theorem valid_congr (hp hp2 : Heap) (s : Slice) (h : hp2.arrays = hp.arrays)
    (hv : s.Valid hp) : s.Valid hp2 := by
  simpa [Slice.Valid, h] using hv

theorem goAppend_fst_of_spare (E : Env) (hp : Heap) (s : Slice) (x : Attr)
    (h : s.len < s.cap) : (goAppend E hp s x).1 = ⟨s.arr, s.off, s.len + 1, s.cap⟩ := by
  have hc : s.len + 1 ≤ s.cap := h
  simp [goAppend, hc]

theorem load_append_left (es : List Entry) (A : List (List Attr)) (x : Entry) (e : Nat)
    (en : Entry) (h : Heap.load ⟨es, A⟩ e = some en) :
    Heap.load ⟨es ++ [x], A⟩ e = some en := by
  have hlt := load_lt ⟨es, A⟩ e en h
  have h2 : es[e]? = some en := h
  simp only [Heap.load]
  rw [List.getElem?_append_left hlt]
  exact h2

theorem load_append_new (es : List Entry) (A : List (List Attr)) (x : Entry) :
    Heap.load ⟨es ++ [x], A⟩ es.length = some x := by
  simp [Heap.load]

/-- C1: `e.WithField(k, v)` returns a new entry whose `Data` reads as the
`Data` of `e` followed by the one attribute `(k, v)`, whose handle is the
handle of `e` bound with exactly that attribute, and whose context is that of
`e`; the struct behind `e` (handle, context, slice header with its length)
and the contents visible through its `Data` are as before. -/
theorem WithField_appends (E : Env) (hp : Heap) (e : Nat) (en : Entry) (k : GoString)
    (v : Value) (hload : hp.load e = some en) (hvalid : en.Data.Valid hp) :
    ∃ hp2 ev,
      Entry.WithField E hp e k v = some (hp.entries.length, hp2) ∧
      hp.entries.length ≠ e ∧
      hp2.load hp.entries.length = some ev ∧
      ev.Data.read hp2 = en.Data.read hp ++ [slogAny k v] ∧
      ev.Logger = E.With en.Logger [slogAny k v] ∧
      ev.Context = en.Context ∧
      hp2.load e = some en ∧
      en.Data.read hp2 = en.Data.read hp := by
  have hlt := load_lt hp e en hload
  obtain ⟨es, A⟩ := hp
  refine ⟨_, _, WithField_run E ⟨es, A⟩ e en k v hload, Nat.ne_of_gt hlt,
    load_append_new _ _ _, ?_, rfl, rfl, load_append_left _ _ _ _ _ hload, ?_⟩
  · exact (read_congr (goAppend E ⟨es, A⟩ en.Data (slogAny k v)).2 _ _ rfl).trans
      (goAppend_read_new E ⟨es, A⟩ en.Data (slogAny k v) hvalid)
  · exact (read_congr (goAppend E ⟨es, A⟩ en.Data (slogAny k v)).2 _ _ rfl).trans
      (goAppend_read_old E ⟨es, A⟩ en.Data (slogAny k v) hvalid)

/-- C1, at a sample input: a fourth field attached to the entry that
carries `k1, k2, k3` in an array of capacity 4. -/
theorem WithField_appends_witness :
    chainHeapLit.load 3 = some ⟨10, Context.background, ⟨2, 0, 3, 4⟩⟩ ∧
    Slice.Valid chainHeapLit ⟨2, 0, 3, 4⟩ ∧
    ∃ hp2 ev,
      Entry.WithField (sampleEnv 0) chainHeapLit 3 (ascii "a") (Value.int 4) = some (4, hp2) ∧
      4 ≠ 3 ∧
      hp2.load 4 = some ev ∧
      ev.Data.read hp2
        = Slice.read chainHeapLit ⟨2, 0, 3, 4⟩ ++ [slogAny (ascii "a") (Value.int 4)] ∧
      ev.Logger = 11 ∧
      ev.Context = Context.background ∧
      hp2.load 3 = some ⟨10, Context.background, ⟨2, 0, 3, 4⟩⟩ ∧
      Slice.read hp2 ⟨2, 0, 3, 4⟩ = Slice.read chainHeapLit ⟨2, 0, 3, 4⟩ :=
  ⟨by decide, by decide,
    WithField_appends (sampleEnv 0) chainHeapLit 3 ⟨10, Context.background, ⟨2, 0, 3, 4⟩⟩
      (ascii "a") (Value.int 4) (by decide) (by decide)⟩

/-- C2, what the code does instead: when the `Data` of `e` has spare
capacity, two derivations from `e` write their attribute into the same array
cell. After `a = e.WithField(k1, v1)` the `Data` of `a` reads as the `Data`
of `e` followed by `(k1, v1)`; after `b = e.WithField(k2, v2)` the `Data` of
`a` reads, like that of `b`, as the `Data` of `e` followed by `(k2, v2)`. -/
theorem WithField_twice_shares_cell (E : Env) (hp : Heap) (e : Nat) (en : Entry)
    (k1 k2 : GoString) (v1 v2 : Value) (hload : hp.load e = some en)
    (hvalid : en.Data.Valid hp) (hspare : en.Data.len < en.Data.cap) :
    ∃ hp1 hp2,
      Entry.WithField E hp e k1 v1 = some (hp.entries.length, hp1) ∧
      hp1.dataOf hp.entries.length = some (en.Data.read hp ++ [slogAny k1 v1]) ∧
      Entry.WithField E hp1 e k2 v2 = some (hp.entries.length + 1, hp2) ∧
      hp2.dataOf (hp.entries.length + 1) = some (en.Data.read hp ++ [slogAny k2 v2]) ∧
      hp2.dataOf hp.entries.length = some (en.Data.read hp ++ [slogAny k2 v2]) := by
  obtain ⟨es, A⟩ := hp
  have hfst1 := goAppend_fst_of_spare E ⟨es, A⟩ en.Data (slogAny k1 v1) hspare
  have hnew1 := goAppend_read_new E ⟨es, A⟩ en.Data (slogAny k1 v1) hvalid
  have hold1 := goAppend_read_old E ⟨es, A⟩ en.Data (slogAny k1 v1) hvalid
  have hval1 := goAppend_valid_old E ⟨es, A⟩ en.Data (slogAny k1 v1) hvalid
  have hrun1 := WithField_run E ⟨es, A⟩ e en k1 v1 hload
  generalize hg1 : goAppend E ⟨es, A⟩ en.Data (slogAny k1 v1) = r1 at hfst1 hnew1 hold1 hval1 hrun1
  obtain ⟨s1, ⟨es1, A1⟩⟩ := r1
  simp only at hfst1 hnew1 hold1 hval1 hrun1
  subst hfst1
  have hload1 : Heap.load
      ⟨es ++ [⟨E.With en.Logger [slogAny k1 v1], en.Context,
        ⟨en.Data.arr, en.Data.off, en.Data.len + 1, en.Data.cap⟩⟩], A1⟩ e = some en :=
    load_append_left _ _ _ _ _ hload
  have hvalid1 : en.Data.Valid
      ⟨es ++ [⟨E.With en.Logger [slogAny k1 v1], en.Context,
        ⟨en.Data.arr, en.Data.off, en.Data.len + 1, en.Data.cap⟩⟩], A1⟩ :=
    valid_congr ⟨es1, A1⟩ _ _ rfl hval1
  have hfst2 := goAppend_fst_of_spare E
    ⟨es ++ [⟨E.With en.Logger [slogAny k1 v1], en.Context,
        ⟨en.Data.arr, en.Data.off, en.Data.len + 1, en.Data.cap⟩⟩], A1⟩
    en.Data (slogAny k2 v2) hspare
  have hnew2 := goAppend_read_new E _ en.Data (slogAny k2 v2) hvalid1
  have hrun2 := WithField_run E _ e en k2 v2 hload1
  generalize hg2 : goAppend E
    ⟨es ++ [⟨E.With en.Logger [slogAny k1 v1], en.Context,
        ⟨en.Data.arr, en.Data.off, en.Data.len + 1, en.Data.cap⟩⟩], A1⟩
    en.Data (slogAny k2 v2) = r2 at hfst2 hnew2 hrun2
  obtain ⟨s2, ⟨es2, A2⟩⟩ := r2
  simp only at hfst2 hnew2 hrun2
  subst hfst2
  have hbase : Slice.read
      ⟨es ++ [⟨E.With en.Logger [slogAny k1 v1], en.Context,
        ⟨en.Data.arr, en.Data.off, en.Data.len + 1, en.Data.cap⟩⟩], A1⟩ en.Data
      = Slice.read ⟨es, A⟩ en.Data :=
    (read_congr ⟨es1, A1⟩ _ _ rfl).trans hold1
  rw [hbase] at hnew2
  simp only [List.length_append, List.length_singleton] at hrun2
  refine ⟨_, _, hrun1, ?_, hrun2, ?_, ?_⟩
  · simp only [Heap.dataOf, load_append_new, Option.map_some']
    exact congrArg some ((read_congr ⟨es1, A1⟩ _ _ rfl).trans hnew1)
  · have hl := load_append_new
      (es ++ [⟨E.With en.Logger [slogAny k1 v1], en.Context,
        ⟨en.Data.arr, en.Data.off, en.Data.len + 1, en.Data.cap⟩⟩]) A2
      ⟨E.With en.Logger [slogAny k2 v2], en.Context,
        ⟨en.Data.arr, en.Data.off, en.Data.len + 1, en.Data.cap⟩⟩
    simp only [List.length_append, List.length_singleton] at hl
    simp only [Heap.dataOf, hl, Option.map_some']
    exact congrArg some ((read_congr ⟨es2, A2⟩ _ _ rfl).trans hnew2)
  · have hl := load_append_left
      (es ++ [⟨E.With en.Logger [slogAny k1 v1], en.Context,
        ⟨en.Data.arr, en.Data.off, en.Data.len + 1, en.Data.cap⟩⟩]) A2
      ⟨E.With en.Logger [slogAny k2 v2], en.Context,
        ⟨en.Data.arr, en.Data.off, en.Data.len + 1, en.Data.cap⟩⟩ es.length _
      (load_append_new es A2 _)
    simp only [Heap.dataOf, hl, Option.map_some']
    exact congrArg some ((read_congr ⟨es2, A2⟩ _ _ rfl).trans hnew2)

/-- C2, at a sample input reached through the public methods alone: the
entry carrying `k1, k2, k3` (three `WithField` calls from the root leave it
with length 3 in an array of capacity 4); two derivations from it, `("a", 4)`
and then `("b", 5)`. The first derived entry ends up reading
`k1, k2, k3, b`. -/
theorem WithField_twice_shares_cell_witness :
    chainHeap = some chainHeapLit ∧
    chainHeapLit.load 3 = some ⟨10, Context.background, ⟨2, 0, 3, 4⟩⟩ ∧
    Slice.Valid chainHeapLit ⟨2, 0, 3, 4⟩ ∧
    ∃ hp1 hp2,
      Entry.WithField (sampleEnv 0) chainHeapLit 3 (ascii "a") (Value.int 4) = some (4, hp1) ∧
      hp1.dataOf 4
        = some [⟨ascii "k1", Value.int 1⟩, ⟨ascii "k2", Value.int 2⟩,
            ⟨ascii "k3", Value.int 3⟩, ⟨ascii "a", Value.int 4⟩] ∧
      Entry.WithField (sampleEnv 0) hp1 3 (ascii "b") (Value.int 5) = some (5, hp2) ∧
      hp2.dataOf 5
        = some [⟨ascii "k1", Value.int 1⟩, ⟨ascii "k2", Value.int 2⟩,
            ⟨ascii "k3", Value.int 3⟩, ⟨ascii "b", Value.int 5⟩] ∧
      hp2.dataOf 4
        = some [⟨ascii "k1", Value.int 1⟩, ⟨ascii "k2", Value.int 2⟩,
            ⟨ascii "k3", Value.int 3⟩, ⟨ascii "b", Value.int 5⟩] :=
  ⟨by decide, by decide, by decide,
    WithField_twice_shares_cell (sampleEnv 0) chainHeapLit 3
      ⟨10, Context.background, ⟨2, 0, 3, 4⟩⟩ (ascii "a") (ascii "b") (Value.int 4) (Value.int 5)
      (by decide) (by decide) (by decide)⟩

/-- C9: `e.WithContext(c)` returns a new entry whose context is `c` and
whose handle and `Data` slice are those of `e` (the same header over the same,
untouched arrays); the struct behind `e` is as before. -/
theorem WithContext_frame (hp : Heap) (e : Nat) (en : Entry) (c : Context)
    (hload : hp.load e = some en) :
    ∃ hp2,
      Entry.WithContext hp e c = some (hp.entries.length, hp2) ∧
      hp.entries.length ≠ e ∧
      hp2.load hp.entries.length = some ⟨en.Logger, c, en.Data⟩ ∧
      hp2.arrays = hp.arrays ∧
      hp2.load e = some en := by
  have hlt := load_lt hp e en hload
  obtain ⟨es, A⟩ := hp
  have hload2 : es[e]? = some en := hload
  refine ⟨⟨es ++ [⟨en.Logger, c, en.Data⟩], A⟩, ?_, Nat.ne_of_gt hlt, load_append_new _ _ _, rfl,
    load_append_left _ _ _ _ _ hload⟩
  simp [Entry.WithContext, Entry.Dup, Heap.load, Heap.store, hload2]

/-- C9, at a sample input: a context set on the entry carrying
`k1, k2, k3`. -/
theorem WithContext_frame_witness :
    chainHeapLit.load 3 = some ⟨10, Context.background, ⟨2, 0, 3, 4⟩⟩ ∧
    ∃ hp2,
      Entry.WithContext chainHeapLit 3 (Context.val 5) = some (4, hp2) ∧
      4 ≠ 3 ∧
      hp2.load 4 = some ⟨10, Context.val 5, ⟨2, 0, 3, 4⟩⟩ ∧
      hp2.arrays = chainHeapLit.arrays ∧
      hp2.load 3 = some ⟨10, Context.background, ⟨2, 0, 3, 4⟩⟩ :=
  ⟨by decide,
    WithContext_frame chainHeapLit 3 ⟨10, Context.background, ⟨2, 0, 3, 4⟩⟩ (Context.val 5)
      (by decide)⟩

/-- C10: `e.WithFields(m)` with an empty map returns a new entry with the
context and the `Data` slice of `e` and with the handle of `e` bound with zero
attributes; no array is touched and the struct behind `e` is as before. When
binding zero attributes gives back the same handle, the result (pointer and
heap) is that of `e.Dup()`. -/
theorem WithFields_empty (E : Env) (hp : Heap) (e : Nat) (en : Entry)
    (hload : hp.load e = some en) :
    (∃ hp2,
      Entry.WithFields E hp e [] = some (hp.entries.length, hp2) ∧
      hp.entries.length ≠ e ∧
      hp2.load hp.entries.length = some ⟨E.With en.Logger [], en.Context, en.Data⟩ ∧
      hp2.arrays = hp.arrays ∧
      hp2.load e = some en) ∧
    (E.With en.Logger [] = en.Logger → Entry.WithFields E hp e [] = Entry.Dup hp e) := by
  have hlt := load_lt hp e en hload
  obtain ⟨es, A⟩ := hp
  have hload2 : es[e]? = some en := hload
  have hl : (es ++ [en])[e]? = some en := by
    rw [List.getElem?_append_left hlt]
    exact hload2
  have hrun : Entry.WithFields E ⟨es, A⟩ e []
      = some (es.length, ⟨es ++ [⟨E.With en.Logger [], en.Context, en.Data⟩], A⟩) := by
    simp [Entry.WithFields, Entry.Dup, withFieldsLoop, Heap.load, Heap.store, hload2, hl]
  refine ⟨⟨_, hrun, Nat.ne_of_gt hlt, load_append_new _ _ _, rfl,
    load_append_left _ _ _ _ _ hload⟩, fun hbind => ?_⟩
  rw [hrun, Dup_run ⟨es, A⟩ e en hload, hbind]

/-- C10, at a sample input: the empty map on the entry carrying
`k1, k2, k3`, with a backend whose handle is unchanged by an empty bind. -/
theorem WithFields_empty_witness :
    chainHeapLit.load 3 = some ⟨10, Context.background, ⟨2, 0, 3, 4⟩⟩ ∧
    (sampleEnv 0).With 10 [] = 10 ∧
    (∃ hp2,
      Entry.WithFields (sampleEnv 0) chainHeapLit 3 [] = some (4, hp2) ∧
      4 ≠ 3 ∧
      hp2.load 4 = some ⟨10, Context.background, ⟨2, 0, 3, 4⟩⟩ ∧
      hp2.arrays = chainHeapLit.arrays ∧
      hp2.load 3 = some ⟨10, Context.background, ⟨2, 0, 3, 4⟩⟩) ∧
    Entry.WithFields (sampleEnv 0) chainHeapLit 3 [] = Entry.Dup chainHeapLit 3 :=
  ⟨by decide, by decide,
    (WithFields_empty (sampleEnv 0) chainHeapLit 3 ⟨10, Context.background, ⟨2, 0, 3, 4⟩⟩
      (by decide)).1,
    (WithFields_empty (sampleEnv 0) chainHeapLit 3 ⟨10, Context.background, ⟨2, 0, 3, 4⟩⟩
      (by decide)).2 (by decide)⟩

end Logrus2Slog
